import Mathlib

/-!
Verification development for the Omni-Lab voice tutoring core.

Shallow embedding of:
- the PCM audio codec (`createPcmBlob` / `decodeAudioData` in `src/unnamed/part_009`,
  duplicated in `src/services/pptGenerator.ts` and `src/unnamed/part_001`);
- the local voice-activity detector and microphone capture callback
  (`processor.onaudioprocess` in `src/services/pptGenerator.ts`);
- the realtime voice session's message handler and playback scheduling
  (`handleMessage` / `clearAudio` in `src/services/pptGenerator.ts`);
- the session start paths (`startGeminiVoice` in `src/services/pptGenerator.ts`
  and `LiveClient.connect` in `src/unnamed/part_001`);
- the auto-lecture state machine (`AutoTutorProvider` in `src/unnamed/part_011`).

Floating point samples are modelled as rationals: every arithmetic operation the
code performs on them (multiplication by the power of two 32768, truncation,
division by 32768, squaring, summation, comparison against 0.02 and 500) is
exact in the rationals for the properties considered here.
-/

namespace OmniLab

/-! ### Audio codec

The source stores a float sample into an `Int16Array` slot
(`int16[i] = inputData[i] * 32768`).  Per the JS semantics of `ToInt16`, the
float is truncated toward zero and the integer is wrapped modulo 2^16 into
[-32768, 32768).  The byte view (`new Uint8Array(int16.buffer)`) is
little-endian. -/

/-- Truncation toward zero, as JS `ToIntegerOrInfinity` does for finite values. -/
def jsTrunc (x : ℚ) : ℤ :=
  if 0 ≤ x then ⌊x⌋ else ⌈x⌉

/-- Wrap an integer modulo 2^16 into the int16 range [-32768, 32768),
as JS `ToInt16` does when storing into an `Int16Array`. -/
def toInt16 (n : ℤ) : ℤ :=
  if n % 65536 < 32768 then n % 65536 else n % 65536 - 65536

/-- The conversion performed by `int16[i] = inputData[i] * 32768` in
`createPcmBlob` (part_009) and `processor.onaudioprocess` (pptGenerator.ts). -/
def float32ToInt16 (x : ℚ) : ℤ :=
  toInt16 (jsTrunc (x * 32768))

/-- Little-endian byte pair of an int16 value, as exposed by
`new Uint8Array(int16.buffer)`. -/
def int16ToBytesLE (n : ℤ) : List ℕ :=
  [(n % 65536).toNat % 256, (n % 65536).toNat / 256]

/-- The byte stream built by `createPcmBlob` (part_009) and by the inline
encode-and-send block of `processor.onaudioprocess` (pptGenerator.ts):
each sample becomes an int16 via truncation and wrapping, concatenated
little-endian.  The base64 transport framing is a bijection on byte
streams and is not modelled. -/
def createPcmBytes (samples : List ℚ) : List ℕ :=
  (samples.map fun x => int16ToBytesLE (float32ToInt16 x)).flatten

/-- Reinterpret an unsigned 16-bit value as a signed int16, as reading from an
`Int16Array` does. -/
def toSigned16 (u : ℕ) : ℤ :=
  if u % 65536 < 32768 then (u % 65536 : ℤ) else (u % 65536 : ℤ) - 65536

/-- The int16 view `new Int16Array(data.buffer)` of a little-endian byte
stream (bytes are values of a `Uint8Array`, hence < 256; a trailing odd byte
cannot occur because the constructor throws first, see `decodeAudioData`). -/
def bytesToInt16sLE : List ℕ → List ℤ
  | [] => []
  | [_] => []
  | b0 :: b1 :: rest => toSigned16 (b0 + 256 * b1) :: bytesToInt16sLE rest

/-- Failure modes of `decodeAudioData`: the `Int16Array` constructor throws a
`RangeError` when the byte length is odd, and `AudioContext.createBuffer`
throws a `NotSupportedError` when the channel count is outside 1..32 or the
(truncated) frame count is zero. -/
inductive AudioErr
  | rangeErr
  | notSupportedErr
deriving DecidableEq

/-- Embedding of `decodeAudioData` (part_009 lines 44-61, duplicated at
pptGenerator.ts lines 258-274): view the bytes as int16 values, compute
`frameCount = dataInt16.length / numChannels` (the non-integer quotient is
truncated by `createBuffer`), and fill each channel with
`dataInt16[i * numChannels + channel] / 32768.0`.  There is no explicit
validation in the source: the only failures are the `RangeError` thrown by the
`Int16Array` view on an odd byte length and the `NotSupportedError` thrown by
`createBuffer` on a zero frame count or an unsupported channel count. -/
def decodeAudioData (bytes : List ℕ) (numChannels : ℕ) :
    Except AudioErr (List (List ℚ)) :=
  if bytes.length % 2 ≠ 0 then Except.error AudioErr.rangeErr
  else if numChannels = 0 ∨ 32 < numChannels ∨
      (bytesToInt16sLE bytes).length / numChannels = 0 then
    Except.error AudioErr.notSupportedErr
  else
    Except.ok ((List.range numChannels).map fun channel =>
      (List.range ((bytesToInt16sLE bytes).length / numChannels)).map fun i =>
        (((bytesToInt16sLE bytes).getD (i * numChannels + channel) 0 : ℤ) : ℚ) / 32768)

/-- Clamp an integer into the representable int16 range, saturating at the
nearest representable value. -/
def clamp16 (n : ℤ) : ℤ :=
  max (-32768) (min 32767 n)

/-- Modelled from the spec's words, for comparison with `createPcmBytes`
(refinement check for claim C5): "maps each sample to int16 via
`round(sample * 32768)`, clamps silently on overflow, concatenates as
little-endian". -/
def specEncodeRoundClamp (samples : List ℚ) : List ℕ :=
  (samples.map fun x => int16ToBytesLE (clamp16 ⌊x * 32768 + 1 / 2⌋)).flatten

/-! ### Basic codec lemmas -/

theorem toInt16_of_range (n : ℤ) (h1 : -32768 ≤ n) (h2 : n < 32768) :
    toInt16 n = n := by
  unfold toInt16
  split <;> omega

theorem toInt16_range (n : ℤ) : -32768 ≤ toInt16 n ∧ toInt16 n < 32768 := by
  unfold toInt16
  have h0 : 0 ≤ n % 65536 := Int.emod_nonneg n (by norm_num)
  have h1 : n % 65536 < 65536 := Int.emod_lt_of_pos n (by norm_num)
  split <;> omega

theorem toSigned16_bytes (n : ℤ) :
    toSigned16 ((n % 65536).toNat % 256 + 256 * ((n % 65536).toNat / 256)) =
      toInt16 n := by
  have h0 : 0 ≤ n % 65536 := Int.emod_nonneg n (by norm_num)
  have h1 : n % 65536 < 65536 := Int.emod_lt_of_pos n (by norm_num)
  unfold toSigned16 toInt16
  have hu : (n % 65536).toNat % 256 + 256 * ((n % 65536).toNat / 256) =
      (n % 65536).toNat := by omega
  rw [hu]
  have hu2 : (n % 65536).toNat % 65536 = (n % 65536).toNat := by omega
  rw [hu2]
  have hcast : (((n % 65536).toNat : ℤ)) = n % 65536 := by omega
  split <;> split <;> omega

theorem createPcmBytes_cons (x : ℚ) (xs : List ℚ) :
    createPcmBytes (x :: xs) =
      int16ToBytesLE (float32ToInt16 x) ++ createPcmBytes xs := rfl

theorem bytesToInt16sLE_int16_cons (n : ℤ) (l : List ℕ) :
    bytesToInt16sLE (int16ToBytesLE n ++ l) = toInt16 n :: bytesToInt16sLE l := by
  simp only [int16ToBytesLE, List.cons_append, List.nil_append,
    bytesToInt16sLE, toSigned16_bytes]
  rfl

theorem toInt16_float32 (x : ℚ) : toInt16 (float32ToInt16 x) = float32ToInt16 x := by
  simp only [float32ToInt16]
  exact toInt16_of_range _ (toInt16_range _).1 (toInt16_range _).2

theorem bytesToInt16sLE_createPcm (s : List ℚ) :
    bytesToInt16sLE (createPcmBytes s) = s.map float32ToInt16 := by
  induction s with
  | nil => rfl
  | cons x xs ih =>
      rw [createPcmBytes_cons, bytesToInt16sLE_int16_cons, ih, List.map_cons,
        toInt16_float32]

theorem createPcmBytes_length (s : List ℚ) :
    (createPcmBytes s).length = 2 * s.length := by
  induction s with
  | nil => rfl
  | cons x xs ih =>
      rw [createPcmBytes_cons, List.length_append, ih]
      simp only [int16ToBytesLE, List.length_cons, List.length_nil]
      omega

theorem bytesToInt16sLE_length :
    ∀ bs : List ℕ, (bytesToInt16sLE bs).length = bs.length / 2
  | [] => rfl
  | [_] => by simp [bytesToInt16sLE]
  | _ :: _ :: rest => by
      simp only [bytesToInt16sLE, List.length_cons]
      rw [bytesToInt16sLE_length rest]
      omega

theorem bytesToInt16sLE_getD :
    ∀ (bs : List ℕ) (j : ℕ), 2 * j + 1 < bs.length →
      (bytesToInt16sLE bs).getD j 0 =
        toSigned16 (bs.getD (2 * j) 0 + 256 * bs.getD (2 * j + 1) 0)
  | [], j, h => by simp at h
  | [_], j, h => by
      simp only [List.length_cons, List.length_nil] at h
      omega
  | b0 :: b1 :: rest, 0, _ => by
      simp [bytesToInt16sLE]
  | b0 :: b1 :: rest, j + 1, h => by
      have hr : 2 * j + 1 < rest.length := by
        simp only [List.length_cons] at h; omega
      have ih := bytesToInt16sLE_getD rest j hr
      have e1 : 2 * (j + 1) = 2 * j + 1 + 1 := by omega
      simp only [bytesToInt16sLE, List.getD_cons_succ, e1, ih]

theorem jsTrunc_close (y : ℚ) : |(jsTrunc y : ℚ) - y| ≤ 1 := by
  unfold jsTrunc
  split
  · have h1 := Int.floor_le y
    have h2 := Int.sub_one_lt_floor y
    rw [abs_le]
    constructor <;> linarith
  · have h1 := Int.le_ceil y
    have h2 := Int.ceil_lt_add_one y
    rw [abs_le]
    constructor <;> linarith

theorem jsTrunc_range (y : ℚ) (h1 : -32768 ≤ y) (h2 : y < 32768) :
    -32768 ≤ jsTrunc y ∧ jsTrunc y < 32768 := by
  unfold jsTrunc
  split
  · rename_i hy
    constructor
    · have : (0 : ℤ) ≤ ⌊y⌋ := Int.floor_nonneg.mpr hy
      omega
    · rw [Int.floor_lt]
      exact_mod_cast h2
  · rename_i hy
    push_neg at hy
    constructor
    · have h3 : ((-32768 : ℤ) : ℚ) ≤ y := by exact_mod_cast h1
      have h4 : ((-32768 : ℤ) : ℚ) ≤ (⌈y⌉ : ℚ) := le_trans h3 (Int.le_ceil y)
      exact_mod_cast h4
    · have : ⌈y⌉ ≤ (0 : ℤ) := Int.ceil_le.mpr (by exact_mod_cast le_of_lt hy)
      omega

theorem float32ToInt16_eq_trunc (x : ℚ) (h1 : -32768 ≤ x * 32768)
    (h2 : x * 32768 < 32768) : float32ToInt16 x = jsTrunc (x * 32768) := by
  obtain ⟨hl, hu⟩ := jsTrunc_range (x * 32768) h1 h2
  exact toInt16_of_range _ hl hu

theorem float32ToInt16_close (x : ℚ) (h1 : -1 ≤ x) (h2 : x < 1) :
    |((float32ToInt16 x : ℤ) : ℚ) / 32768 - x| ≤ 1 / 32768 := by
  have hm1 : -32768 ≤ x * 32768 := by linarith
  have hm2 : x * 32768 < 32768 := by linarith
  rw [float32ToInt16_eq_trunc x hm1 hm2]
  have hc := jsTrunc_close (x * 32768)
  have heq : ((jsTrunc (x * 32768) : ℤ) : ℚ) / 32768 - x =
      (((jsTrunc (x * 32768) : ℤ) : ℚ) - x * 32768) / 32768 := by ring
  rw [heq, abs_div]
  have : |(32768 : ℚ)| = 32768 := by norm_num
  rw [this]
  apply div_le_div_of_nonneg_right ?_ (by norm_num)
  exact hc

/-! ### Voice activity detector and microphone capture

Embedding of `processor.onaudioprocess` (pptGenerator.ts lines 476-526).
The callback first returns if `stopped || muted`; then computes an RMS over a
strided subsample (every 4th sample, `sum += inputData[i] * inputData[i]` for
`i += 4`, `rms = sqrt(sum / (inputData.length / 4))`); fires `onUserActivity`
when `rms > 0.02` and `now - lastActivityTime > 500`; then always encodes the
frame to PCM and sends it.  The comparison `sqrt(sum / (len / 4)) > 0.02` is
represented by the equivalent rational comparison `10000 * sum > len`
(both sides of the squared inequality multiplied by `4 * 2500 > 0`); the lemma
`vadHot_iff_rms` proves this matches the source's square-root formulation. -/

/-- Samples at indices 0, 4, 8, ... of a frame (`for i += 4`). -/
def stride4 : List ℚ → List ℚ
  | [] => []
  | [a] => [a]
  | [a, _] => [a]
  | [a, _, _] => [a]
  | a :: _ :: _ :: _ :: rest => a :: stride4 rest

/-- The accumulated `sum` of squared strided samples. -/
def sumSqStride (frame : List ℚ) : ℚ :=
  ((stride4 frame).map fun x => x * x).sum

/-- The source's `rms > VAD_THRESHOLD` comparison, as an exact rational
condition: `sqrt(sum / (len / 4)) > 0.02` iff `10000 * sum > len`. -/
def vadHot (frame : List ℚ) : Prop :=
  (frame.length : ℚ) < 10000 * sumSqStride frame

instance (frame : List ℚ) : Decidable (vadHot frame) := by
  unfold vadHot; infer_instance

theorem sumSqStride_nonneg (frame : List ℚ) : 0 ≤ sumSqStride frame := by
  unfold sumSqStride
  apply List.sum_nonneg
  intro x hx
  obtain ⟨y, _, rfl⟩ := List.mem_map.mp hx
  exact mul_self_nonneg y

/-- Justification that `vadHot` is the source's square-root comparison:
for a nonempty frame, `10000 * sum > len` holds exactly when
`sqrt(sum / (len / 4)) > 0.02`. -/
theorem vadHot_iff_rms (frame : List ℚ) (h : frame ≠ []) :
    vadHot frame ↔
      (1 / 50 : ℝ) <
        Real.sqrt ((sumSqStride frame : ℝ) / ((frame.length : ℝ) / 4)) := by
  have hlen : (0 : ℝ) < (frame.length : ℝ) := by
    have : 0 < frame.length := List.length_pos.mpr h
    exact_mod_cast this
  have hs : (0 : ℝ) ≤ (sumSqStride frame : ℝ) := by
    exact_mod_cast sumSqStride_nonneg frame
  unfold vadHot
  rw [show ((1 : ℝ) / 50) = Real.sqrt ((1 / 50) ^ 2) by
        rw [Real.sqrt_sq (by norm_num)]]
  rw [Real.sqrt_lt_sqrt_iff (by positivity)]
  rw [lt_div_iff₀ (by positivity)]
  constructor
  · intro hv
    have hv' : ((frame.length : ℚ) : ℝ) < ((10000 * sumSqStride frame : ℚ) : ℝ) := by
      exact_mod_cast hv
    push_cast at hv'
    nlinarith
  · intro hv
    have : ((frame.length : ℚ) : ℝ) < ((10000 * sumSqStride frame : ℚ) : ℝ) := by
      push_cast
      nlinarith
    exact_mod_cast this

/-- Mutable state captured by the closure in `startGeminiVoice`: the `stopped`
and `muted` flags and the VAD's `lastActivityTime`. -/
structure CaptureState where
  stopped : Bool
  muted : Bool
  lastActivityTime : ℚ
deriving DecidableEq

/-- Observable outputs of one capture callback: a `onUserActivity` callback
invocation, or a PCM frame handed to `session.sendRealtimeInput`. -/
inductive CaptureOut
  | userActivity
  | sendFrame (bytes : List ℕ)
deriving DecidableEq

/-- One invocation of `processor.onaudioprocess` (pptGenerator.ts 476-526):
return immediately when stopped or muted; otherwise run the VAD check
(updating `lastActivityTime` and firing `onUserActivity` only when the frame
is above threshold and more than 500 ms passed), then encode and send the
frame. -/
def onAudProcess (st : CaptureState) (now : ℚ) (frame : List ℚ) :
    CaptureState × List CaptureOut :=
  if st.stopped = true ∨ st.muted = true then (st, [])
  else if vadHot frame ∧ 500 < now - st.lastActivityTime then
    ({ st with lastActivityTime := now },
     [CaptureOut.userActivity, CaptureOut.sendFrame (createPcmBytes frame)])
  else
    (st, [CaptureOut.sendFrame (createPcmBytes frame)])

/-- A sequence of capture callbacks, each tagged with its `Date.now()`. -/
def runCapture (st : CaptureState) :
    List (ℚ × List ℚ) → CaptureState × List CaptureOut
  | [] => (st, [])
  | p :: rest =>
      let r1 := onAudProcess st p.1 p.2
      let r2 := runCapture r1.1 rest
      (r2.1, r1.2 ++ r2.2)

/-- Number of `onUserActivity` invocations in a capture output trace. -/
def activityCount (l : List CaptureOut) : ℕ :=
  l.countP fun o => decide (o = CaptureOut.userActivity)

/-- Modelled from the claim's words, for comparison with `onAudProcess`
(refinement check for claim C7): emit an activity event when the frame's
strided RMS exceeds the threshold and "at least 500 ms have elapsed since the
last emitted event" — i.e. a non-strict 500 ms debounce.  Returns the updated
last-emitted timestamp and the number of events emitted. -/
def claimVadStep (last : ℚ) (now : ℚ) (frame : List ℚ) : ℚ × ℕ :=
  if vadHot frame ∧ 500 ≤ now - last then (now, 1) else (last, 0)

/-- Run of the claim-level VAD over a timed frame sequence, counting events. -/
def claimVadRun (last : ℚ) : List (ℚ × List ℚ) → ℕ
  | [] => 0
  | p :: rest =>
      let r := claimVadStep last p.1 p.2
      r.2 + claimVadRun r.1 rest

theorem activityCount_append (a b : List CaptureOut) :
    activityCount (a ++ b) = activityCount a + activityCount b := by
  unfold activityCount
  exact List.countP_append _ _ _

/-- A single capture callback arriving no later than 500 ms after the last
emitted activity event leaves the state unchanged and fires no event (the
debounce branch never updates `lastActivityTime`). -/
theorem onAudProcess_no_fire (st : CaptureState) (now : ℚ) (frame : List ℚ)
    (h : now ≤ st.lastActivityTime + 500) :
    (onAudProcess st now frame).1 = st ∧
      activityCount (onAudProcess st now frame).2 = 0 := by
  unfold onAudProcess
  split
  · simp [activityCount]
  · rw [if_neg]
    · simp [activityCount]
    · rintro ⟨-, habs⟩
      linarith

/-- When every frame of a capture run arrives no later than 500 ms after the
last emitted activity event, no events fire and the state is unchanged. -/
theorem runCapture_no_fire (st : CaptureState) (l : List (ℚ × List ℚ))
    (h : ∀ p ∈ l, p.1 ≤ st.lastActivityTime + 500) :
    (runCapture st l).1 = st ∧ activityCount (runCapture st l).2 = 0 := by
  induction l with
  | nil => exact ⟨rfl, rfl⟩
  | cons p rest ih =>
      have hp := h p (List.mem_cons_self p rest)
      have hstep := onAudProcess_no_fire st p.1 p.2 hp
      have hrest : ∀ q ∈ rest, q.1 ≤ st.lastActivityTime + 500 := fun q hq =>
        h q (List.mem_cons_of_mem p hq)
      obtain ⟨ih1, ih2⟩ := ih hrest
      simp only [runCapture]
      rw [hstep.1]
      refine ⟨ih1, ?_⟩
      rw [activityCount_append, hstep.2, ih2]

/-! ### Realtime voice session: playback scheduling and message handling

Embedding of the closure state of `startGeminiVoice` (pptGenerator.ts):
`nextStartTime`, the `activeSources` set (represented as a list of handles in
insertion order, with a counter generating fresh handles) and the `isSpeaking`
flag, together with `clearAudio` (lines 374-385) and `handleMessage`
(lines 389-454). -/

/-- The playback-related closure state of `startGeminiVoice`. -/
structure VoiceSession where
  nextStartTime : ℚ
  activeSources : List ℕ
  isSpeaking : Bool
  nextHandle : ℕ
deriving DecidableEq

/-- Observable side effects of the session's message handling, in the order
they are performed. -/
inductive VoiceEff
  | stopSource (h : ℕ)
  | speakingStopCb
  | speakingStartCb
  | interruptedCb
  | turnCompleteCb
  | textCb (chunk : ℕ)
  | startSource (h : ℕ) (startTime : ℚ)
deriving DecidableEq

/-- Embedding of `clearAudio` (pptGenerator.ts 374-385): stop every active
source, empty the set, reset `nextStartTime` to 0, and fire `onSpeakingStop`
if speech was in progress. -/
def clearAudioQueue (s : VoiceSession) : VoiceSession × List VoiceEff :=
  ({ s with activeSources := [], nextStartTime := 0, isSpeaking := false },
   s.activeSources.map VoiceEff.stopSource ++
     if s.isSpeaking = true then [VoiceEff.speakingStopCb] else [])

/-- One part of a model turn: optional text chunk (represented by an opaque
identifier) and optional inline audio payload bytes. -/
structure MsgPart where
  text : Option ℕ
  audioBytes : Option (List ℕ)
deriving DecidableEq

/-- A `LiveServerMessage` as inspected by `handleMessage`:
`serverContent.interrupted`, `serverContent.turnComplete`, and
`serverContent.modelTurn.parts`. -/
structure ServerMsg where
  interrupted : Bool
  turnComplete : Bool
  parts : Option (List MsgPart)
deriving DecidableEq

/-- The two lines of the scheduler at pptGenerator.ts 435-438:
`nextStartTime = Math.max(nextStartTime, audioContext.currentTime)`,
`source.start(nextStartTime)`, then `nextStartTime += audioBuffer.duration`.
Returns the scheduled start time and the advanced `nextStartTime`. -/
def enqueueFrame (next : ℚ) (now : ℚ) (dur : ℚ) : ℚ × ℚ :=
  (max next now, max next now + dur)

/-- Processing of a single model-turn part (pptGenerator.ts 409-453): emit the
text chunk if present; on the first audio chunk mark speaking and fire
`onSpeakingStart`; decode the audio (a decode failure is caught and the part
skipped) and schedule the buffer via `enqueueFrame`, registering the new
source.  The buffer duration is `frameCount / 24000`. -/
def processPart (ctxTime : ℚ) (s : VoiceSession) (p : MsgPart) :
    VoiceSession × List VoiceEff :=
  let textEffs := match p.text with
    | some t => [VoiceEff.textCb t]
    | none => []
  match p.audioBytes with
  | none => (s, textEffs)
  | some bytes =>
      let startEffs := if s.isSpeaking = false then [VoiceEff.speakingStartCb] else []
      let s1 := { s with isSpeaking := true }
      match decodeAudioData bytes 1 with
      | Except.error _ => (s1, textEffs ++ startEffs)
      | Except.ok chans =>
          let dur : ℚ := ((chans.headD []).length : ℚ) / 24000
          let sched := enqueueFrame s1.nextStartTime ctxTime dur
          let s2 := { s1 with nextStartTime := sched.2, activeSources := s1.activeSources ++ [s1.nextHandle], nextHandle := s1.nextHandle + 1 }
          (s2, textEffs ++ startEffs ++ [VoiceEff.startSource s1.nextHandle sched.1])

/-- Left-to-right processing of a message's parts (`for (const part of parts)`). -/
def processParts (ctxTime : ℚ) (s : VoiceSession) :
    List MsgPart → VoiceSession × List VoiceEff
  | [] => (s, [])
  | p :: rest =>
      let r1 := processPart ctxTime s p
      let r2 := processParts ctxTime r1.1 rest
      (r2.1, r1.2 ++ r2.2)

/-- Embedding of `handleMessage` (pptGenerator.ts 389-454): an interruption is
handled first — `clearAudio()` runs, then `onInterrupted` is forwarded, and
the handler returns; next `turnComplete` is forwarded; otherwise the model
turn parts are processed. -/
def handleVoiceMessage (ctxTime : ℚ) (s : VoiceSession) (msg : ServerMsg) :
    VoiceSession × List VoiceEff :=
  if msg.interrupted = true then
    let r := clearAudioQueue s
    (r.1, r.2 ++ [VoiceEff.interruptedCb])
  else if msg.turnComplete = true then
    (s, [VoiceEff.turnCompleteCb])
  else
    match msg.parts with
    | none => (s, [])
    | some ps => processParts ctxTime s ps

/-- Iterated scheduling of audio frames: the list of start times produced when
frames with clock readings and durations `(now_i, dur_i)` are enqueued in
order through `enqueueFrame`, starting from `nextStartTime = next0`. -/
def schedRun (next0 : ℚ) : List (ℚ × ℚ) → List ℚ
  | [] => []
  | p :: rest =>
      (enqueueFrame next0 p.1 p.2).1 :: schedRun (enqueueFrame next0 p.1 p.2).2 rest

theorem schedRun_length (next0 : ℚ) (fs : List (ℚ × ℚ)) :
    (schedRun next0 fs).length = fs.length := by
  induction fs generalizing next0 with
  | nil => rfl
  | cons p rest ih => simp [schedRun, ih]

theorem schedRun_head_ge (next0 : ℚ) (fs : List (ℚ × ℚ)) (h : fs ≠ []) :
    next0 ≤ (schedRun next0 fs).getD 0 0 := by
  cases fs with
  | nil => exact absurd rfl h
  | cons p rest =>
      simp only [schedRun, enqueueFrame, List.getD_cons_zero]
      exact le_max_left _ _

/-- On the audio path, `processPart` schedules the new source exactly at
`max nextStartTime ctxTime` and advances `nextStartTime` by the decoded
buffer's duration — the single step that `schedRun` iterates. -/
theorem processPart_schedules (ctxTime : ℚ) (s : VoiceSession) (p : MsgPart)
    (bytes : List ℕ) (chans : List (List ℚ)) (hb : p.audioBytes = some bytes)
    (hd : decodeAudioData bytes 1 = Except.ok chans) :
    (processPart ctxTime s p).1.nextStartTime =
        max s.nextStartTime ctxTime + ((chans.headD []).length : ℚ) / 24000 ∧
      VoiceEff.startSource s.nextHandle (max s.nextStartTime ctxTime) ∈
        (processPart ctxTime s p).2 := by
  unfold processPart
  rw [hb]
  dsimp only
  rw [hd]
  simp [enqueueFrame]

/-! ### Session start and teardown (claim C9)

`startGeminiVoice` (pptGenerator.ts 328-626) creates the two audio contexts,
then awaits `getUserMedia`, then awaits the Live connection — with no
`try`/`catch`: a rejection at either `await` propagates to the caller and no
already-acquired resource is released.  `LiveClient.connect` (part_001 51-90)
performs the same three steps inside a `try` whose `catch` calls
`this.disconnect()` (releasing stream, nodes and both contexts) before
rethrowing.  Both are modelled as functions of an injected failure point. -/

/-- Resources acquired during session start. -/
structure SessionResources where
  outCtxOpen : Bool
  inCtxOpen : Bool
  streamActive : Bool
  sessionOpen : Bool
deriving DecidableEq

/-- Points at which session start can fail: `getUserMedia` rejecting
(microphone permission denied) or `ai.live.connect` rejecting (handshake
failure). -/
inductive StartFailure
  | micDenied
  | handshakeFailed
deriving DecidableEq

/-- State before any acquisition, and after a complete teardown. -/
def noResources : SessionResources :=
  { outCtxOpen := false, inCtxOpen := false, streamActive := false,
    sessionOpen := false }

/-- Embedding of the acquisition sequence of `startGeminiVoice`
(pptGenerator.ts 341-352 and 552): contexts, then microphone, then session —
with no cleanup on failure; an error escapes with whatever was already
acquired still held.  The error value records the resource state observed by
the caller at the moment the rejection propagates. -/
def startGeminiVoiceAcquire (fail : Option StartFailure) :
    Except (StartFailure × SessionResources) SessionResources :=
  let r1 := { noResources with outCtxOpen := true, inCtxOpen := true }
  if fail = some StartFailure.micDenied then
    Except.error (StartFailure.micDenied, r1)
  else
    let r2 := { r1 with streamActive := true }
    if fail = some StartFailure.handshakeFailed then
      Except.error (StartFailure.handshakeFailed, r2)
    else
      Except.ok { r2 with sessionOpen := true }

/-- Embedding of `LiveClient.disconnect` (part_001 167-204): stops sources,
disconnects nodes, stops the stream tracks, closes both contexts. -/
def liveClientDisconnect (_ : SessionResources) : SessionResources :=
  noResources

/-- Embedding of `LiveClient.connect` (part_001 51-90): the same acquisition
sequence, but wrapped in `try`/`catch` where the catch runs `disconnect()`
("Clean up resources if connection fails") and rethrows. -/
def liveClientConnect (fail : Option StartFailure) :
    Except (StartFailure × SessionResources) SessionResources :=
  let r1 := { noResources with outCtxOpen := true, inCtxOpen := true }
  if fail = some StartFailure.micDenied then
    Except.error (StartFailure.micDenied, liveClientDisconnect r1)
  else
    let r2 := { r1 with streamActive := true }
    if fail = some StartFailure.handshakeFailed then
      Except.error (StartFailure.handshakeFailed, liveClientDisconnect r2)
    else
      Except.ok { r2 with sessionOpen := true }

/-! ### Auto-lecture state machine

Embedding of `AutoTutorProvider` (part_011 lines 638-1186).  The machine's
observable data: `tutorState`, `isAutoMode`, the slide deck length and current
index, the two ref-tracked timers (`advanceTimerRef`, which captures the next
slide index in its closure, and `researchTimerRef`), the
`isVisualGeneratingRef` flag, the mic mute flag, the visual overlay, and the
multiset of outstanding anonymous `setTimeout` callbacks, which — unlike the
two ref-tracked timers — are never stored and therefore can never be
cancelled.  React state setters are modelled as direct field updates (the
source mirrors every piece of state into a ref so handlers read fresh
values). -/

/-- The `TutorState` union type (part_011 668-676). -/
inductive TutorState
  | idle
  | auto_explaining
  | paused_for_question
  | answering
  | research_mode
  | visual_explaining
  | waiting_to_resume
  | finished
deriving DecidableEq

/-- Question categories returned by `detectQuestionType`; the source's
string "external" is the constructor `extResearch` here. -/
inductive QType
  | slide_related
  | general_concept
  | extResearch
  | visual_request
deriving DecidableEq

/-- Anonymous `setTimeout` callbacks created by the provider.  None of these
is stored in a ref, so `stopAutoExplain` cannot cancel them. -/
inductive Delayed
  | settleToAnswering
  | visualClose
  | resumeKeyword
  | initialExplain
deriving DecidableEq

/-- The machine state of `AutoTutorProvider`. -/
structure AutoTutor where
  state : TutorState
  isAutoMode : Bool
  slideCount : ℕ
  slideIndex : ℕ
  advanceTimer : Option ℕ
  researchTimer : Bool
  isVisualGenerating : Bool
  micMuted : Bool
  showVisualOverlay : Bool
  pending : List Delayed
  sessionOpen : Bool
deriving DecidableEq

/-- Side effects requested from the voice session and UI. -/
inductive TutorEff
  | requestNarration (idx : ℕ)
  | sendTutorText
  | stopPlayback
  | clearSubs
  | closeSession
  | setMute (enabled : Bool)
deriving DecidableEq

/-- Embedding of `explainCurrentSlide` (part_011 804-832): if the index is
past the deck, transition to `finished`; otherwise set `auto_explaining`,
clear subtitles and send the narration request for the current slide. -/
def explainCurrentSlide (m : AutoTutor) : AutoTutor × List TutorEff :=
  if m.slideCount ≤ m.slideIndex then
    ({ m with state := TutorState.finished }, [])
  else
    ({ m with state := TutorState.auto_explaining },
     [TutorEff.clearSubs, TutorEff.requestNarration m.slideIndex])

/-- Embedding of `handleTurnComplete` (part_011 836-886).  In
`auto_explaining` it either finishes or (re)arms the ref-tracked advance
timer, capturing the next index.  In `answering`/`paused_for_question`/
`research_mode` it transitions to `waiting_to_resume`.  In
`visual_explaining` it is ignored while generation is in progress; otherwise
it schedules an anonymous 1-second timeout (`Delayed.visualClose`) that closes
the overlay, unmutes and transitions — unconditionally, with no state guard. -/
def handleTurnComplete (m : AutoTutor) : AutoTutor × List TutorEff :=
  match m.state with
  | TutorState.auto_explaining =>
      if m.slideCount ≤ m.slideIndex + 1 then
        ({ m with state := TutorState.finished }, [])
      else
        ({ m with advanceTimer := some (m.slideIndex + 1) }, [])
  | TutorState.answering => ({ m with state := TutorState.waiting_to_resume }, [])
  | TutorState.paused_for_question =>
      ({ m with state := TutorState.waiting_to_resume }, [])
  | TutorState.research_mode =>
      ({ m with state := TutorState.waiting_to_resume }, [])
  | TutorState.visual_explaining =>
      if m.isVisualGenerating = true then (m, [])
      else ({ m with pending := m.pending ++ [Delayed.visualClose] }, [])
  | _ => (m, [])

/-- Embedding of `handleUserSpeechDetected` (part_011 890-912) together with
the classification effect it triggers (part_011 955-960, which arms the
ref-tracked 3-second `researchTimerRef` whenever the state becomes
`paused_for_question`): in `auto_explaining`, cancel the advance timer, stop
playback, enter `paused_for_question` and schedule the anonymous 2-second
settling timeout. -/
def handleUserSpeech (m : AutoTutor) : AutoTutor × List TutorEff :=
  if m.state = TutorState.auto_explaining then
    ({ m with advanceTimer := none, state := TutorState.paused_for_question, pending := m.pending ++ [Delayed.settleToAnswering], researchTimer := true },
     [TutorEff.stopPlayback])
  else (m, [])

/-- Firing of the ref-tracked advance timer (part_011 848-855): clear the
ref, and only if still `auto_explaining` in auto mode, advance to the
captured index and explain it. -/
def fireAdvanceTimer (m : AutoTutor) : AutoTutor × List TutorEff :=
  match m.advanceTimer with
  | none => (m, [])
  | some next =>
      let m0 := { m with advanceTimer := none }
      if m0.state = TutorState.auto_explaining ∧ m0.isAutoMode = true then
        explainCurrentSlide { m0 with slideIndex := next }
      else (m0, [])

/-- Firing of the ref-tracked classification timer with the classifier's
verdict (part_011 960-1072): cleared on firing; a no-op unless the state is
still `answering`.  An external question enters `research_mode`; a visual
request enters `visual_explaining`, mutes the microphone ("Mute mic to
prevent self-interruption during generation") and raises the
generation-in-progress flag; other categories leave the state alone. -/
def fireResearchTimer (m : AutoTutor) (q : QType) : AutoTutor × List TutorEff :=
  if m.researchTimer = false then (m, [])
  else
    let m0 := { m with researchTimer := false }
    if m0.state ≠ TutorState.answering then (m0, [])
    else
      match q with
      | QType.extResearch =>
          ({ m0 with state := TutorState.research_mode }, [TutorEff.sendTutorText])
      | QType.visual_request =>
          ({ m0 with state := TutorState.visual_explaining, micMuted := true, isVisualGenerating := true, showVisualOverlay := true },
           [TutorEff.setMute true, TutorEff.sendTutorText])
      | _ => (m0, [])

/-- Completion of the asynchronous visual generation (part_011 1037-1066):
clear the generation flag; on success send the explanation request; on
failure close the overlay, unmute, send the verbal fallback and revert the
state to `answering` — unconditionally, with no state guard. -/
def fireVisualGenDone (m : AutoTutor) (success : Bool) : AutoTutor × List TutorEff :=
  let m0 := { m with isVisualGenerating := false }
  if success = true then (m0, [TutorEff.sendTutorText])
  else
    ({ m0 with showVisualOverlay := false, micMuted := false, state := TutorState.answering },
     [TutorEff.setMute false, TutorEff.sendTutorText])

/-- Firing of one of the anonymous timeouts. -/
def fireDelayed (m : AutoTutor) : Delayed → AutoTutor × List TutorEff
  | Delayed.settleToAnswering =>
      if m.state = TutorState.paused_for_question then
        ({ m with state := TutorState.answering }, [])
      else (m, [])
  | Delayed.visualClose =>
      ({ m with showVisualOverlay := false, micMuted := false, state := TutorState.waiting_to_resume },
       [TutorEff.setMute false])
  | Delayed.resumeKeyword =>
      if m.state = TutorState.waiting_to_resume then
        let m1 := if m.slideIndex + 1 < m.slideCount then { m with slideIndex := m.slideIndex + 1 } else m
        let r := explainCurrentSlide m1
        (r.1, TutorEff.clearSubs :: r.2)
      else (m, [])
  | Delayed.initialExplain => explainCurrentSlide m

/-- Embedding of `startAutoExplain` (part_011 1076-1090): install the deck,
reset the index, enter auto mode and `auto_explaining`, connect the session
if needed, and schedule the anonymous initial `explainCurrentSlide` timeout
(500 ms when already connected, 1000 ms via the connection effect
otherwise). -/
def startAutoExplain (m : AutoTutor) (n : ℕ) : AutoTutor × List TutorEff :=
  ({ m with slideCount := n, slideIndex := 0, isAutoMode := true, state := TutorState.auto_explaining, showVisualOverlay := false, pending := m.pending ++ [Delayed.initialExplain], sessionOpen := true },
   [])

/-- Embedding of `stopAutoExplain` (part_011 1099-1110): clear the two
ref-tracked timers, leave auto mode, set `idle`, stop playback, clear
subtitles, close the panels and stop the voice session.  The anonymous
timeouts in `pending` are not (and cannot be) cancelled. -/
def stopAutoExplain (m : AutoTutor) : AutoTutor × List TutorEff :=
  ({ m with advanceTimer := none, researchTimer := false, isAutoMode := false, state := TutorState.idle, showVisualOverlay := false, sessionOpen := false },
   [TutorEff.stopPlayback, TutorEff.clearSubs, TutorEff.closeSession])

/-- Embedding of `goToSlide` (part_011 1130-1140): ignore invalid indices;
cancel the advance timer; set the index; and while in auto mode with a
non-idle state, clear subtitles, stop playback and explain the target slide
(which sets `auto_explaining`). -/
def goToSlide (m : AutoTutor) (i : ℕ) : AutoTutor × List TutorEff :=
  if m.slideCount ≤ i then (m, [])
  else
    let m0 := { m with advanceTimer := none, slideIndex := i }
    if m0.isAutoMode = true ∧ m0.state ≠ TutorState.idle then
      let r := explainCurrentSlide m0
      (r.1, [TutorEff.clearSubs, TutorEff.stopPlayback] ++ r.2)
    else (m0, [])

/-- Events serialized through the provider's dispatch. -/
inductive TutorEvent
  | startLecture (n : ℕ)
  | turnComplete
  | userActivity
  | stop
  | goTo (i : ℕ)
  | advanceFire
  | researchFire (q : QType)
  | delayedFire (d : Delayed)
  | visualGenDone (success : Bool)
deriving DecidableEq

/-- One dispatch step.  An anonymous timeout can fire only if it is actually
outstanding; firing consumes it. -/
def tutorStep (m : AutoTutor) : TutorEvent → AutoTutor × List TutorEff
  | TutorEvent.startLecture n => startAutoExplain m n
  | TutorEvent.turnComplete => handleTurnComplete m
  | TutorEvent.userActivity => handleUserSpeech m
  | TutorEvent.stop => stopAutoExplain m
  | TutorEvent.goTo i => goToSlide m i
  | TutorEvent.advanceFire => fireAdvanceTimer m
  | TutorEvent.researchFire q => fireResearchTimer m q
  | TutorEvent.delayedFire d =>
      if d ∈ m.pending then fireDelayed { m with pending := m.pending.erase d } d
      else (m, [])
  | TutorEvent.visualGenDone s => fireVisualGenDone m s

/-- A serialized event run. -/
def runTutor (m : AutoTutor) : List TutorEvent → AutoTutor × List TutorEff
  | [] => (m, [])
  | e :: es =>
      let r1 := tutorStep m e
      let r2 := runTutor r1.1 es
      (r2.1, r1.2 ++ r2.2)

/-- The provider's initial state. -/
def initTutor : AutoTutor :=
  { state := TutorState.idle, isAutoMode := false, slideCount := 0,
    slideIndex := 0, advanceTimer := none, researchTimer := false,
    isVisualGenerating := false, micMuted := false, showVisualOverlay := false,
    pending := [], sessionOpen := false }

/-! ### Helper lemmas for the claims -/

theorem getD_map_range {β : Type} (f : ℕ → β) (n i : ℕ) (h : i < n) (d : β) :
    ((List.range n).map f).getD i d = f i := by
  rw [List.getD_eq_getElem?_getD, List.getElem?_map, List.getElem?_range h]
  rfl

theorem getD_map_of_lt {α β : Type} (f : α → β) (l : List α) (i : ℕ)
    (h : i < l.length) (d : α) (d2 : β) :
    (l.map f).getD i d2 = f (l.getD i d) := by
  rw [List.getD_eq_getElem?_getD, List.getElem?_map,
    List.getElem?_eq_getElem h, List.getD_eq_getElem?_getD,
    List.getElem?_eq_getElem h]
  rfl

theorem decodeAudioData_ok (bytes : List ℕ) (channels : ℕ)
    (heven : bytes.length % 2 = 0) (hch : 1 ≤ channels) (hch32 : channels ≤ 32)
    (hfc : (bytesToInt16sLE bytes).length / channels ≠ 0) :
    decodeAudioData bytes channels =
      Except.ok ((List.range channels).map fun channel =>
        (List.range ((bytesToInt16sLE bytes).length / channels)).map fun i =>
          (((bytesToInt16sLE bytes).getD (i * channels + channel) 0 : ℤ) : ℚ) /
            32768) := by
  unfold decodeAudioData
  rw [if_neg (by omega), if_neg (by push_neg; exact ⟨by omega, by omega, hfc⟩)]

theorem decode_createPcm (s : List ℚ) (hne : s ≠ []) :
    decodeAudioData (createPcmBytes s) 1 =
      Except.ok [(List.range s.length).map fun i =>
        (((s.map float32ToInt16).getD i 0 : ℤ) : ℚ) / 32768] := by
  have hlen : (createPcmBytes s).length = 2 * s.length := createPcmBytes_length s
  have hslen : s.length ≠ 0 := fun h => hne (List.length_eq_zero.mp h)
  have h16 : bytesToInt16sLE (createPcmBytes s) = s.map float32ToInt16 :=
    bytesToInt16sLE_createPcm s
  have h16len : (bytesToInt16sLE (createPcmBytes s)).length / 1 = s.length := by
    rw [h16, List.length_map, Nat.div_one]
  rw [decodeAudioData_ok (createPcmBytes s) 1 (by omega) (by omega) (by omega)
    (by rw [h16len]; exact hslen)]
  have hr1 : List.range 1 = [0] := rfl
  rw [h16len, h16, hr1, List.map_cons, List.map_nil]
  simp only [Nat.mul_one, Nat.add_zero]

/-! ### Claims C4, C5, C6 — the audio codec -/

/-- Claim C4, counterexample: the claim quantifies over every float sample
array, but at the sample value 1.0 the encoder computes `1.0 * 32768 = 32768`,
which wraps to -32768 when stored into the `Int16Array`; the decoded value is
-1.0 and the round-trip error is 2, far above one quantization step. -/
theorem c4_counterexample :
    decodeAudioData (createPcmBytes [1]) 1 = Except.ok [[-1]] ∧
    ¬ |(-1 : ℚ) - 1| ≤ 1 / 32768 := by
  constructor
  · rw [decode_createPcm [1] (by simp)]
    simp only [Except.ok.injEq]
    have h1 : float32ToInt16 1 = -32768 := by
      norm_num [float32ToInt16, jsTrunc, toInt16]
    have hr1 : List.range 1 = [0] := rfl
    rw [List.length_singleton, hr1, List.map_cons, List.map_nil]
    simp only [List.map_cons, List.map_nil, List.getD_cons_zero, h1]
    norm_num
  · norm_num

/-- Claim C4, amended: for a nonempty sample array whose samples lie in
[-1, 1), decoding the encoded bytes reproduces each sample within one int16
quantization step (1/32768). -/
theorem c4_roundtrip_within_quantization (s : List ℚ) (hne : s ≠ [])
    (hs : ∀ x ∈ s, -1 ≤ x ∧ x < 1) :
    ∃ out : List ℚ, decodeAudioData (createPcmBytes s) 1 = Except.ok [out] ∧
      out.length = s.length ∧
      ∀ i, i < s.length → |out.getD i 0 - s.getD i 0| ≤ 1 / 32768 := by
  refine ⟨_, decode_createPcm s hne, ?_, ?_⟩
  · rw [List.length_map, List.length_range]
  · intro i hi
    rw [getD_map_range _ s.length i hi]
    rw [getD_map_of_lt float32ToInt16 s i hi 0]
    have hmem : s.getD i 0 ∈ s := by
      rw [List.getD_eq_getElem?_getD, List.getElem?_eq_getElem hi]
      exact List.getElem_mem hi
    obtain ⟨hl, hu⟩ := hs (s.getD i 0) hmem
    exact float32ToInt16_close (s.getD i 0) hl hu

/-- Claim C4 witness: a concrete instance of the amended round-trip. -/
theorem c4_witness :
    ([(1 : ℚ) / 2] ≠ ([] : List ℚ)) ∧
    (∃ out : List ℚ,
      decodeAudioData (createPcmBytes [(1 : ℚ) / 2]) 1 = Except.ok [out] ∧
      out.length = 1 ∧
      ∀ i, i < 1 → |out.getD i 0 - [(1 : ℚ) / 2].getD i 0| ≤ 1 / 32768) :=
  ⟨by simp, c4_roundtrip_within_quantization [(1 : ℚ) / 2] (by simp)
    (by intro x hx; rw [List.mem_singleton] at hx; rw [hx]; norm_num)⟩

/-- Claim C5, counterexample: the claim describes encoding as
`round(sample * 32768)` with silent clamping, but the source truncates toward
zero and wraps modulo 2^16.  At sample 1.0 the claimed encoder saturates to
32767 (bytes `[255, 127]`) while the code wraps to -32768 (bytes `[0, 128]`);
at sample 3/65536 (scaled value 1.5) the claimed encoder rounds to 2 while the
code truncates to 1. -/
theorem c5_counterexample :
    createPcmBytes [1] = [0, 128] ∧ specEncodeRoundClamp [1] = [255, 127] ∧
    createPcmBytes [3 / 65536] = [1, 0] ∧
    specEncodeRoundClamp [3 / 65536] = [2, 0] := by
  have e1 : float32ToInt16 1 = -32768 := by
    norm_num [float32ToInt16, jsTrunc, toInt16]
  have e2 : float32ToInt16 (3 / 65536) = 1 := by
    norm_num [float32ToInt16, jsTrunc, toInt16]
  have r1 : clamp16 ⌊(1 : ℚ) * 32768 + 1 / 2⌋ = 32767 := by
    norm_num [clamp16]
  have r2 : clamp16 ⌊(3 / 65536 : ℚ) * 32768 + 1 / 2⌋ = 2 := by
    norm_num [clamp16]
  refine ⟨?_, ?_, ?_, ?_⟩
  · calc createPcmBytes [1] = int16ToBytesLE (float32ToInt16 1) ++ [] := by
          simp [createPcmBytes]
      _ = [0, 128] := by rw [e1]; decide
  · calc specEncodeRoundClamp [1] =
          int16ToBytesLE (clamp16 ⌊(1 : ℚ) * 32768 + 1 / 2⌋) ++ [] := by
            simp [specEncodeRoundClamp]
      _ = [255, 127] := by rw [r1]; decide
  · calc createPcmBytes [3 / 65536] =
          int16ToBytesLE (float32ToInt16 (3 / 65536)) ++ [] := by
            simp [createPcmBytes]
      _ = [1, 0] := by rw [e2]; decide
  · calc specEncodeRoundClamp [3 / 65536] =
          int16ToBytesLE (clamp16 ⌊(3 / 65536 : ℚ) * 32768 + 1 / 2⌋) ++ [] := by
            simp [specEncodeRoundClamp]
      _ = [2, 0] := by rw [r2]; decide

/-- Claim C5, amended: encode maps each float sample to an int16 by
truncating `sample * 32768` toward zero and wrapping modulo 2^16 on overflow
(no rounding and no clamping), and concatenates the results as little-endian
bytes; it is deterministic and total.  Concretely: the little-endian int16
view of the encoded bytes is exactly `float32ToInt16` mapped over the
samples, the output length is `2 * n`, the conversion agrees with plain
truncation whenever the scaled sample is within the int16 range, and every
produced value is a representable int16. -/
theorem c5_encode_trunc_wrap_le :
    (∀ s : List ℚ, bytesToInt16sLE (createPcmBytes s) = s.map float32ToInt16) ∧
    (∀ s : List ℚ, (createPcmBytes s).length = 2 * s.length) ∧
    (∀ x : ℚ, -32768 ≤ x * 32768 → x * 32768 < 32768 →
      float32ToInt16 x = jsTrunc (x * 32768)) ∧
    (∀ x : ℚ, -32768 ≤ float32ToInt16 x ∧ float32ToInt16 x < 32768) :=
  ⟨bytesToInt16sLE_createPcm, createPcmBytes_length, float32ToInt16_eq_trunc,
   fun x => toInt16_range (jsTrunc (x * 32768))⟩

/-- Claim C5 witness: concrete instances of the amended encode description. -/
theorem c5_witness :
    bytesToInt16sLE (createPcmBytes [(1 : ℚ) / 2]) =
      [(1 : ℚ) / 2].map float32ToInt16 ∧
    (createPcmBytes [(1 : ℚ) / 2]).length = 2 * 1 ∧
    ((-32768 : ℚ) ≤ (1 / 2 : ℚ) * 32768 ∧ (1 / 2 : ℚ) * 32768 < 32768) ∧
    float32ToInt16 (1 / 2) = jsTrunc ((1 / 2 : ℚ) * 32768) :=
  ⟨c5_encode_trunc_wrap_le.1 [(1 : ℚ) / 2],
   c5_encode_trunc_wrap_le.2.1 [(1 : ℚ) / 2],
   ⟨by norm_num, by norm_num⟩,
   c5_encode_trunc_wrap_le.2.2.1 (1 / 2) (by norm_num) (by norm_num)⟩

/-- Claim C6, counterexample: with 2 channels and 6 input bytes the byte
length is not a multiple of `2 * channels = 4`, yet `decodeAudioData` does not
fail — the fractional frame count `3 / 2` is silently truncated to 1 and a
frame is returned. -/
theorem c6_counterexample :
    (6 : ℕ) % (2 * 2) ≠ 0 ∧
    decodeAudioData [0, 0, 0, 0, 0, 0] 2 = Except.ok [[0], [0]] := by
  refine ⟨by decide, ?_⟩
  rw [decodeAudioData_ok [0, 0, 0, 0, 0, 0] 2 (by decide) (by decide) (by decide)
    (by decide)]
  simp only [Except.ok.injEq]
  have hlen : (bytesToInt16sLE [0, 0, 0, 0, 0, 0]).length / 2 = 1 := by decide
  rw [hlen]
  have hr1 : List.range 1 = [0] := rfl
  have hr2 : List.range 2 = [0, 1] := rfl
  rw [hr1, hr2]
  have g0 : (bytesToInt16sLE [0, 0, 0, 0, 0, 0]).getD 0 0 = 0 := by decide
  have g1 : (bytesToInt16sLE [0, 0, 0, 0, 0, 0]).getD 1 0 = 0 := by decide
  simp only [List.map_cons, List.map_nil, Nat.zero_mul, Nat.zero_add,
    Nat.add_zero, g0, g1]
  norm_num

/-- Claim C6, amended: decode throws exactly when the byte length is odd (the
`RangeError` of the `Int16Array` view) or when the truncated frame count is
zero or the channel count is outside 1..32 (the `NotSupportedError` of
`createBuffer`); a byte length that is even but not a multiple of
`2 * channels` is not rejected.  For input whose byte length is a positive
multiple of `2 * channels` with a valid channel count, decode returns the
frame whose samples are the little-endian int16 values divided by 32768. -/
theorem c6_decode_error_iff_odd :
    (∀ (bytes : List ℕ) (channels : ℕ), bytes.length % 2 ≠ 0 →
      decodeAudioData bytes channels = Except.error AudioErr.rangeErr) ∧
    (∀ (bytes : List ℕ) (channels k : ℕ), 1 ≤ channels → channels ≤ 32 →
      1 ≤ k → bytes.length = 2 * channels * k →
      ∃ out, decodeAudioData bytes channels = Except.ok out ∧
        out.length = channels ∧
        ∀ ch, ch < channels → ∀ i, i < k →
          (out.getD ch []).getD i 0 =
            ((toSigned16 (bytes.getD (2 * (i * channels + ch)) 0 +
              256 * bytes.getD (2 * (i * channels + ch) + 1) 0) : ℤ) : ℚ) /
              32768) := by
  constructor
  · intro bytes channels hodd
    unfold decodeAudioData
    rw [if_pos hodd]
  · intro bytes channels k hch hch32 hk hlen
    have hlen2 : bytes.length = 2 * (channels * k) := by
      rw [hlen, Nat.mul_assoc]
    have h16len : (bytesToInt16sLE bytes).length = channels * k := by
      rw [bytesToInt16sLE_length, hlen2]
      omega
    have hfc : (bytesToInt16sLE bytes).length / channels = k := by
      rw [h16len]
      exact Nat.mul_div_cancel_left k (by omega)
    refine ⟨_, decodeAudioData_ok bytes channels (by rw [hlen2]; omega) hch hch32
      (by rw [hfc]; omega), ?_, ?_⟩
    · rw [List.length_map, List.length_range]
    · intro ch hch2 i hi
      rw [getD_map_range _ channels ch hch2, hfc]
      rw [getD_map_range _ k i hi]
      have hic : i * channels + ch < channels * k := by
        have h1 : (i + 1) * channels ≤ k * channels :=
          Nat.mul_le_mul_right channels hi
        have h2 : (i + 1) * channels = i * channels + channels :=
          Nat.succ_mul i channels
        have h3 : channels * k = k * channels := Nat.mul_comm channels k
        omega
      have hj : 2 * (i * channels + ch) + 1 < bytes.length := by
        rw [hlen2]
        omega
      rw [bytesToInt16sLE_getD bytes (i * channels + ch) hj]

/-- Claim C6 witness: a concrete instance of the amended decode behavior. -/
theorem c6_witness :
    decodeAudioData [1, 2, 3] 1 = Except.error AudioErr.rangeErr ∧
    (∃ out, decodeAudioData [0, 128, 0, 64] 2 = Except.ok out ∧
      out.length = 2 ∧
      ∀ ch, ch < 2 → ∀ i, i < 1 →
        (out.getD ch []).getD i 0 =
          ((toSigned16 ([0, 128, 0, 64].getD (2 * (i * 2 + ch)) 0 +
            256 * [0, 128, 0, 64].getD (2 * (i * 2 + ch) + 1) 0) : ℤ) : ℚ) /
            32768) :=
  ⟨c6_decode_error_iff_odd.1 [1, 2, 3] 1 (by decide),
   c6_decode_error_iff_odd.2 [0, 128, 0, 64] 2 1 (by decide) (by decide)
     (by decide) (by decide)⟩

/-! ### Claim C2 — interruption clears playback before the callback -/

/-- Claim C2 (confirmed): on a message with `serverContent.interrupted`,
`handleMessage` first performs the full playback clear — a stop for every
active source, the set emptied, `nextStartTime` reset to 0 — and only then
invokes `onInterrupted`: the callback is the last effect, appears nowhere
earlier, every stop precedes it, and the state seen by the owner has no
active sources and `nextStartTime = 0`. -/
theorem c2_interrupted_clears_before_callback (ctxTime : ℚ) (s : VoiceSession)
    (msg : ServerMsg) (hint : msg.interrupted = true) :
    (handleVoiceMessage ctxTime s msg).1.activeSources = [] ∧
    (handleVoiceMessage ctxTime s msg).1.nextStartTime = 0 ∧
    (handleVoiceMessage ctxTime s msg).1.isSpeaking = false ∧
    (handleVoiceMessage ctxTime s msg).2.getLast? = some VoiceEff.interruptedCb ∧
    VoiceEff.interruptedCb ∉ (handleVoiceMessage ctxTime s msg).2.dropLast ∧
    ∀ h ∈ s.activeSources,
      VoiceEff.stopSource h ∈ (handleVoiceMessage ctxTime s msg).2.dropLast := by
  unfold handleVoiceMessage
  rw [if_pos hint]
  unfold clearAudioQueue
  dsimp only
  refine ⟨rfl, rfl, rfl, List.getLast?_concat _, ?_, ?_⟩
  · rw [List.dropLast_concat]
    intro hmem
    rcases List.mem_append.mp hmem with hmem | hmem
    · obtain ⟨a, -, heq⟩ := List.mem_map.mp hmem
      exact VoiceEff.noConfusion heq
    · by_cases hsp : s.isSpeaking = true
      · rw [if_pos hsp] at hmem
        simp at hmem
      · rw [if_neg hsp] at hmem
        simp at hmem
  · intro h hh
    rw [List.dropLast_concat]
    exact List.mem_append_left _ (List.mem_map_of_mem _ hh)

/-- Claim C2 witness: a concrete interrupted message against a session with
two active sources and speech in progress. -/
theorem c2_witness :
    ((⟨true, false, none⟩ : ServerMsg).interrupted = true) ∧
    ((handleVoiceMessage 0 ⟨5, [7, 8], true, 9⟩ ⟨true, false, none⟩).1.activeSources = [] ∧
     (handleVoiceMessage 0 ⟨5, [7, 8], true, 9⟩ ⟨true, false, none⟩).1.nextStartTime = 0 ∧
     (handleVoiceMessage 0 ⟨5, [7, 8], true, 9⟩ ⟨true, false, none⟩).1.isSpeaking = false ∧
     (handleVoiceMessage 0 ⟨5, [7, 8], true, 9⟩ ⟨true, false, none⟩).2.getLast? = some VoiceEff.interruptedCb ∧
     VoiceEff.interruptedCb ∉ (handleVoiceMessage 0 ⟨5, [7, 8], true, 9⟩ ⟨true, false, none⟩).2.dropLast ∧
     ∀ h ∈ (⟨5, [7, 8], true, 9⟩ : VoiceSession).activeSources,
       VoiceEff.stopSource h ∈ (handleVoiceMessage 0 ⟨5, [7, 8], true, 9⟩ ⟨true, false, none⟩).2.dropLast) :=
  ⟨rfl, c2_interrupted_clears_before_callback 0 ⟨5, [7, 8], true, 9⟩
    ⟨true, false, none⟩ rfl⟩

/-! ### Claim C3 — gap-free, non-overlapping playback scheduling -/

/-- Claim C3 (confirmed): each enqueued frame starts at
`max nextStartTime now` and `nextStartTime` then advances by the frame's
duration (`enqueueFrame`), so over any enqueue sequence the start time of
frame `i+1` is at least the start time of frame `i` plus frame `i`'s
duration. -/
theorem c3_no_overlap (next0 : ℚ) (frames : List (ℚ × ℚ)) (i : ℕ)
    (h : i + 1 < frames.length) :
    (schedRun next0 frames).getD i 0 + (frames.getD i (0, 0)).2 ≤
      (schedRun next0 frames).getD (i + 1) 0 := by
  induction frames generalizing next0 i with
  | nil => simp at h
  | cons p rest ih =>
      cases i with
      | zero =>
          have hne : rest ≠ [] := by
            cases rest
            · simp at h
            · exact List.cons_ne_nil _ _
          have hhead := schedRun_head_ge (enqueueFrame next0 p.1 p.2).2 rest hne
          simp only [schedRun, List.getD_cons_zero, List.getD_cons_succ]
          unfold enqueueFrame at hhead ⊢
          dsimp only at hhead ⊢
          linarith
      | succ i =>
          have h2 : i + 1 < rest.length := by
            simp only [List.length_cons] at h
            omega
          simp only [schedRun, List.getD_cons_succ]
          exact ih _ i h2

/-- Claim C3 witness: a concrete two-frame schedule. -/
theorem c3_witness :
    ((0 : ℕ) + 1 < ([( (0 : ℚ), (1 : ℚ)), ((0 : ℚ), (2 : ℚ))] : List (ℚ × ℚ)).length) ∧
    (schedRun 5 [((0 : ℚ), (1 : ℚ)), ((0 : ℚ), (2 : ℚ))]).getD 0 0 +
        (([( (0 : ℚ), (1 : ℚ)), ((0 : ℚ), (2 : ℚ))] : List (ℚ × ℚ)).getD 0 (0, 0)).2 ≤
      (schedRun 5 [((0 : ℚ), (1 : ℚ)), ((0 : ℚ), (2 : ℚ))]).getD (0 + 1) 0 :=
  ⟨by norm_num,
   c3_no_overlap 5 [((0 : ℚ), (1 : ℚ)), ((0 : ℚ), (2 : ℚ))] 0 (by norm_num)⟩

/-! ### Claim C7 — VAD threshold and debounce -/

theorem activityCount_nil : activityCount [] = 0 := rfl

theorem activityCount_userActivity (l : List CaptureOut) :
    activityCount (CaptureOut.userActivity :: l) = activityCount l + 1 := by
  simp [activityCount, List.countP_cons]

theorem activityCount_send (b : List ℕ) (l : List CaptureOut) :
    activityCount (CaptureOut.sendFrame b :: l) = activityCount l := by
  simp [activityCount, List.countP_cons]

/-- A capture callback that is live (not stopped, not muted), above threshold
and past the debounce window fires an activity event, records the time, and
sends the encoded frame. -/
theorem onAudProcess_fire (st : CaptureState) (now : ℚ) (f : List ℚ)
    (hstop : st.stopped = false) (hmute : st.muted = false)
    (hf : vadHot f) (ht : 500 < now - st.lastActivityTime) :
    onAudProcess st now f = ({ st with lastActivityTime := now },
      [CaptureOut.userActivity, CaptureOut.sendFrame (createPcmBytes f)]) := by
  unfold onAudProcess
  rw [if_neg (by rw [hstop, hmute]; simp), if_pos ⟨hf, ht⟩]

/-- The sample frame `[1]` is above the VAD threshold. -/
theorem vadHot_one : vadHot [1] := by
  norm_num [vadHot, sumSqStride, stride4]

/-- Claim C7, counterexample: the claim's debounce is "at least 500 ms"
(non-strict), but the source requires `now - lastActivityTime > 500`
(strict).  Two above-threshold frames exactly 500 ms apart produce one event
in the code, while the claim's rule (modelled by `claimVadRun`) emits two. -/
theorem c7_counterexample :
    activityCount (runCapture ⟨false, false, 0⟩ [(1000, [1]), (1500, [1])]).2 = 1 ∧
    claimVadRun 0 [(1000, [1]), (1500, [1])] = 2 ∧
    vadHot [1] ∧ (500 : ℚ) ≤ 1500 - 1000 := by
  refine ⟨?_, ?_, vadHot_one, by norm_num⟩
  · have h1 := onAudProcess_fire ⟨false, false, 0⟩ 1000 [1] rfl rfl vadHot_one
      (by norm_num)
    have h2 : onAudProcess ⟨false, false, 1000⟩ 1500 [1] =
        (⟨false, false, 1000⟩, [CaptureOut.sendFrame (createPcmBytes [1])]) := by
      unfold onAudProcess
      rw [if_neg (by simp), if_neg (by rintro ⟨-, habs⟩; norm_num at habs)]
    simp only [runCapture]
    rw [h1, h2]
    simp [activityCount_append, activityCount_userActivity, activityCount_send,
      activityCount_nil]
  · have s1 : claimVadStep 0 1000 [1] = (1000, 1) := by
      unfold claimVadStep
      rw [if_pos ⟨vadHot_one, by norm_num⟩]
    have s2 : claimVadStep 1000 1500 [1] = (1500, 1) := by
      unfold claimVadStep
      rw [if_pos ⟨vadHot_one, by norm_num⟩]
    simp only [claimVadRun]
    rw [s1, s2]
    rfl

/-- Claim C7, amended: the VAD emits an activity event when a frame's strided
RMS exceeds the 0.02 threshold and strictly more than 500 ms have elapsed
since the last emitted event.  Consequently twenty consecutive above-threshold
frames within a 100 ms window produce exactly one event, and two
above-threshold frames 600 ms apart produce exactly two. -/
theorem c7_debounce :
    (∀ (f : List ℚ) (t0 : ℚ) (ts : List ℚ), vadHot f → 500 < t0 →
      ts.length = 19 → (∀ t ∈ ts, t0 ≤ t ∧ t ≤ t0 + 100) →
      activityCount (runCapture ⟨false, false, 0⟩
        ((t0, f) :: ts.map fun t => (t, f))).2 = 1) ∧
    (∀ (f : List ℚ) (t0 : ℚ), vadHot f → 500 < t0 →
      activityCount (runCapture ⟨false, false, 0⟩
        [(t0, f), (t0 + 600, f)]).2 = 2) := by
  constructor
  · intro f t0 ts hf ht0 _ hts
    have hfire := onAudProcess_fire ⟨false, false, 0⟩ t0 f rfl rfl hf
      (by simpa using ht0)
    simp only [runCapture]
    rw [hfire]
    have hq := runCapture_no_fire ⟨false, false, t0⟩ (ts.map fun t => (t, f))
      (by
        intro p hp
        obtain ⟨t, ht, rfl⟩ := List.mem_map.mp hp
        have := (hts t ht).2
        dsimp only
        linarith)
    simp [activityCount_append, hq.2, activityCount_userActivity,
      activityCount_send, activityCount_nil]
  · intro f t0 hf ht0
    have hfire1 := onAudProcess_fire ⟨false, false, 0⟩ t0 f rfl rfl hf
      (by simpa using ht0)
    have hfire2 := onAudProcess_fire ⟨false, false, t0⟩ (t0 + 600) f rfl rfl hf
      (by norm_num)
    simp only [runCapture]
    rw [hfire1, hfire2]
    simp [activityCount_append, activityCount_userActivity, activityCount_send,
      activityCount_nil]

/-- Claim C7 witness: concrete instances of both debounce scenarios. -/
theorem c7_witness :
    (vadHot [1] ∧ (500 : ℚ) < 1000 ∧
      ((List.replicate 19 (1005 : ℚ)).length = 19) ∧
      activityCount (runCapture ⟨false, false, 0⟩
        (((1000 : ℚ), [(1 : ℚ)]) ::
          (List.replicate 19 (1005 : ℚ)).map fun t => (t, [(1 : ℚ)]))).2 = 1) ∧
    activityCount (runCapture ⟨false, false, 0⟩
      [((1000 : ℚ), [(1 : ℚ)]), ((1000 : ℚ) + 600, [(1 : ℚ)])]).2 = 2 := by
  constructor
  · refine ⟨vadHot_one, by norm_num, by simp, ?_⟩
    refine c7_debounce.1 [1] 1000 (List.replicate 19 (1005 : ℚ))
      vadHot_one (by norm_num) (by simp) ?_
    intro t ht
    rw [List.eq_of_mem_replicate ht]
    norm_num
  · exact c7_debounce.2 [1] 1000 vadHot_one (by norm_num)

/-! ### Claim C1 — explicit stop and pending timers -/

/-- An event trace of the machine: start a two-slide lecture, narrate slide
0, user interrupts, grace timer settles to `answering`, the question is
classified as a visual request, generation completes, the final
`turnComplete` arrives (scheduling the anonymous 1-second overlay-close
timeout), and then the explicit stop is dispatched. -/
def c1Events : List TutorEvent :=
  [TutorEvent.startLecture 2, TutorEvent.delayedFire Delayed.initialExplain,
   TutorEvent.userActivity, TutorEvent.delayedFire Delayed.settleToAnswering,
   TutorEvent.researchFire QType.visual_request, TutorEvent.visualGenDone true,
   TutorEvent.turnComplete, TutorEvent.stop]

/-- Claim C1 (code bug): `stopAutoExplain` does set the state to `idle` and
clears the two ref-tracked timers, but the anonymous overlay-close timeout
scheduled by a `turnComplete` in `visual_explaining` is not stored in any ref
and survives the stop; when it fires it unconditionally sets the state to
`waiting_to_resume`, moving the machine out of `idle` after the explicit
stop — contradicting the claim that no timer scheduled before the stop can
later move the state out of idle. -/
theorem c1_stop_pending_timer_leak :
    (runTutor initTutor c1Events).1.state = TutorState.idle ∧
    (runTutor initTutor c1Events).1.advanceTimer = none ∧
    (runTutor initTutor c1Events).1.researchTimer = false ∧
    (runTutor initTutor c1Events).1.pending = [Delayed.visualClose] ∧
    (tutorStep (runTutor initTutor c1Events).1
        (TutorEvent.delayedFire Delayed.visualClose)).1.state =
      TutorState.waiting_to_resume := by
  refine ⟨by decide, by decide, by decide, by decide, by decide⟩

/-! ### Claim C8 — manual navigation during auto-lecture -/

/-- Claim C8, counterexample: from the reachable state `waiting_to_resume`
(auto mode, 3 slides), `goToSlide 0` runs `explainCurrentSlide`, which sets
the state to `auto_explaining` — the `TutorState` observed after `goToSlide`
differs from the one before it, contradicting the claim that it is unchanged
for every non-idle starting state. -/
theorem c8_counterexample :
    (runTutor initTutor [TutorEvent.startLecture 3,
      TutorEvent.delayedFire Delayed.initialExplain, TutorEvent.userActivity,
      TutorEvent.delayedFire Delayed.settleToAnswering,
      TutorEvent.turnComplete]).1.state = TutorState.waiting_to_resume ∧
    (runTutor initTutor [TutorEvent.startLecture 3,
      TutorEvent.delayedFire Delayed.initialExplain, TutorEvent.userActivity,
      TutorEvent.delayedFire Delayed.settleToAnswering,
      TutorEvent.turnComplete]).1.isAutoMode = true ∧
    (tutorStep (runTutor initTutor [TutorEvent.startLecture 3,
      TutorEvent.delayedFire Delayed.initialExplain, TutorEvent.userActivity,
      TutorEvent.delayedFire Delayed.settleToAnswering,
      TutorEvent.turnComplete]).1 (TutorEvent.goTo 0)).1.state =
      TutorState.auto_explaining ∧
    TutorState.auto_explaining ≠ TutorState.waiting_to_resume := by
  refine ⟨by decide, by decide, by decide, by decide⟩

/-- Claim C8, amended: `goToSlide` with a valid index while auto-lecturing
(auto mode, non-idle state) cancels the pending advance timer, sets the slide
index, clears playback and immediately requests narration for the target
slide — and it sets the state to `auto_explaining`, so the state is unchanged
exactly when the machine was already in `auto_explaining`. -/
theorem c8_goToSlide (m : AutoTutor) (i : ℕ) (hi : i < m.slideCount)
    (hmode : m.isAutoMode = true) (hstate : m.state ≠ TutorState.idle) :
    (goToSlide m i).1.advanceTimer = none ∧
    (goToSlide m i).1.slideIndex = i ∧
    (goToSlide m i).1.state = TutorState.auto_explaining ∧
    TutorEff.stopPlayback ∈ (goToSlide m i).2 ∧
    TutorEff.requestNarration i ∈ (goToSlide m i).2 := by
  unfold goToSlide
  rw [if_neg (by omega), if_pos ⟨hmode, hstate⟩]
  unfold explainCurrentSlide
  dsimp only
  rw [if_neg (by omega)]
  refine ⟨rfl, rfl, rfl, ?_, ?_⟩ <;> simp

/-- Claim C8 witness: `goToSlide 0` from `waiting_to_resume` with a pending
advance timer. -/
theorem c8_witness :
    ((0 : ℕ) < (⟨TutorState.waiting_to_resume, true, 3, 1, some 2, false,
        false, false, false, [], true⟩ : AutoTutor).slideCount) ∧
    ((goToSlide ⟨TutorState.waiting_to_resume, true, 3, 1, some 2, false,
        false, false, false, [], true⟩ 0).1.advanceTimer = none ∧
      (goToSlide ⟨TutorState.waiting_to_resume, true, 3, 1, some 2, false,
        false, false, false, [], true⟩ 0).1.slideIndex = 0 ∧
      (goToSlide ⟨TutorState.waiting_to_resume, true, 3, 1, some 2, false,
        false, false, false, [], true⟩ 0).1.state = TutorState.auto_explaining ∧
      TutorEff.stopPlayback ∈ (goToSlide ⟨TutorState.waiting_to_resume, true,
        3, 1, some 2, false, false, false, false, [], true⟩ 0).2 ∧
      TutorEff.requestNarration 0 ∈ (goToSlide ⟨TutorState.waiting_to_resume,
        true, 3, 1, some 2, false, false, false, false, [], true⟩ 0).2) :=
  ⟨by decide,
   c8_goToSlide ⟨TutorState.waiting_to_resume, true, 3, 1, some 2, false,
     false, false, false, [], true⟩ 0 (by decide) (by decide) (by decide)⟩

/-! ### Claim C9 — failed session start and resource teardown -/

/-- Claim C9 (code bug): in `startGeminiVoice`, a `getUserMedia` rejection
escapes to the caller with both already-created audio contexts still open,
and a handshake rejection escapes with the contexts and the microphone stream
still held — there is no `try`/`catch` teardown.  `LiveClient.connect`, the
pattern the file says it is based on, does tear everything down in its catch
before rethrowing. -/
theorem c9_start_failure_no_teardown :
    startGeminiVoiceAcquire (some StartFailure.micDenied) =
      Except.error (StartFailure.micDenied,
        { outCtxOpen := true, inCtxOpen := true, streamActive := false,
          sessionOpen := false }) ∧
    startGeminiVoiceAcquire (some StartFailure.handshakeFailed) =
      Except.error (StartFailure.handshakeFailed,
        { outCtxOpen := true, inCtxOpen := true, streamActive := true,
          sessionOpen := false }) ∧
    liveClientConnect (some StartFailure.micDenied) =
      Except.error (StartFailure.micDenied, noResources) ∧
    liveClientConnect (some StartFailure.handshakeFailed) =
      Except.error (StartFailure.handshakeFailed, noResources) := by
  refine ⟨rfl, rfl, rfl, rfl⟩

/-! ### Claim C10 — muting disables VAD and sending -/

/-- Claim C10 (confirmed): while muted (and likewise after stop) the capture
callback returns before both the VAD check and the encode-and-send step — a
single callback produces no output and leaves the state untouched, and an
entire muted capture run emits no `onUserActivity` events and sends no
frames; moreover the state machine's visual-request classification step mutes
the microphone as it enters `visual_explaining`. -/
theorem c10_mute_disables_vad_and_send :
    (∀ (st : CaptureState) (now : ℚ) (frame : List ℚ),
      st.muted = true ∨ st.stopped = true →
        onAudProcess st now frame = (st, [])) ∧
    (∀ (st : CaptureState) (l : List (ℚ × List ℚ)), st.muted = true →
      runCapture st l = (st, [])) ∧
    (∀ m : AutoTutor, m.state = TutorState.answering → m.researchTimer = true →
      (tutorStep m (TutorEvent.researchFire QType.visual_request)).1.micMuted = true ∧
      (tutorStep m (TutorEvent.researchFire QType.visual_request)).1.state =
        TutorState.visual_explaining) := by
  have hstep : ∀ (st : CaptureState) (now : ℚ) (frame : List ℚ),
      st.muted = true ∨ st.stopped = true → onAudProcess st now frame = (st, []) := by
    intro st now frame h
    unfold onAudProcess
    rw [if_pos (h.elim Or.inr Or.inl)]
  refine ⟨hstep, ?_, ?_⟩
  · intro st l hm
    induction l with
    | nil => rfl
    | cons p rest ih =>
        simp only [runCapture]
        rw [hstep st p.1 p.2 (Or.inl hm), ih]
        rfl
  · intro m h1 h2
    unfold tutorStep fireResearchTimer
    dsimp only
    rw [if_neg (by simp [h2]), if_neg (not_not_intro h1)]
    exact ⟨rfl, rfl⟩

/-- Claim C10 witness: a muted capture state swallows a loud frame, a muted
run emits nothing, and a concrete `answering` machine is muted by the
visual-request classification. -/
theorem c10_witness :
    ((⟨false, true, 0⟩ : CaptureState).muted = true ∨
      (⟨false, true, 0⟩ : CaptureState).stopped = true) ∧
    onAudProcess ⟨false, true, 0⟩ 1000 [1] = (⟨false, true, 0⟩, []) ∧
    runCapture ⟨false, true, 0⟩ [(1000, [1]), (1600, [1])] = (⟨false, true, 0⟩, []) ∧
    ((tutorStep ⟨TutorState.answering, true, 3, 0, none, true, false, false,
        false, [], true⟩ (TutorEvent.researchFire QType.visual_request)).1.micMuted = true ∧
      (tutorStep ⟨TutorState.answering, true, 3, 0, none, true, false, false,
        false, [], true⟩ (TutorEvent.researchFire QType.visual_request)).1.state =
        TutorState.visual_explaining) :=
  ⟨Or.inl rfl,
   c10_mute_disables_vad_and_send.1 ⟨false, true, 0⟩ 1000 [1] (Or.inl rfl),
   c10_mute_disables_vad_and_send.2.1 ⟨false, true, 0⟩ [(1000, [1]), (1600, [1])] rfl,
   c10_mute_disables_vad_and_send.2.2 ⟨TutorState.answering, true, 3, 0, none,
     true, false, false, false, [], true⟩ rfl rfl⟩

end OmniLab
